import Mathlib

/-!
Shallow embedding of `src/build_questions.py`.

Python strings are modelled as `List Char`; a line of text is `Line := List Char`.
The regular expressions of the source are hand-translated to the exact matching
semantics of the patterns as used there: anchored `re.match`, leftmost `re.search`,
greedy `\s*` with its backtracking worked out per pattern, and first-alternative
preference for `md|mod`.  The character classes `\s` and `\d`, Python `str.lower`
and `str.strip` are modelled on ASCII, the range the patterns and the data of the
source use.
-/

namespace BuildQuestions

/-- A line of text, as a list of characters. -/
abbrev Line := List Char

/-- Characters of a string literal. -/
def lchars (s : String) : List Char := s.data

/-- ASCII whitespace, as recognised by Python `str.strip` and `\s`. -/
def pyIsSpace (c : Char) : Bool :=
  c = ' ' || c = '\t' || c = '\n' || c = '\r' || c = '\x0b' || c = '\x0c'

/-- Python `str.strip`: drop whitespace from both ends. -/
def pyStrip (l : List Char) : List Char :=
  ((l.dropWhile pyIsSpace).reverse.dropWhile pyIsSpace).reverse

/-- Python `str.split` at newline characters. -/
def splitOnNL : List Char → List (List Char)
  | [] => [[]]
  | c :: rest =>
    if c = '\n' then [] :: splitOnNL rest
    else
      match splitOnNL rest with
      | g :: gs => (c :: g) :: gs
      | [] => [[c]]

/-- Python `text.replace` of CRLF by LF (left to right, non-overlapping). -/
def replaceCRLF : List Char → List Char
  | '\r' :: '\n' :: rest => '\n' :: replaceCRLF rest
  | c :: rest => c :: replaceCRLF rest
  | [] => []

/-- ASCII lowercasing (Python `str.lower` on the ASCII range). -/
def lowerCh (c : Char) : Char :=
  if 'A' ≤ c ∧ c ≤ 'Z' then Char.ofNat (c.toNat + 32) else c

/-- Integer value of a digit string, like Python `int`. -/
def digitsToNat (ds : List Char) : Nat :=
  ds.foldl (fun a c => a * 10 + (c.toNat - 48)) 0

/-- Matcher for the tail `\s*0?(\d+)` of the module pattern at a fixed
position: greedy whitespace, then an optional single `0` (given back by
backtracking when no digit follows it), then the captured digit run.
Returns the integer value of the captured digits. -/
def matchTail (l : List Char) : Option Nat :=
  let rest := l.dropWhile pyIsSpace
  match rest with
  | '0' :: rest2 =>
    let ds := rest2.takeWhile Char.isDigit
    if ds.isEmpty then some 0 else some (digitsToNat ds)
  | _ =>
    let ds := rest.takeWhile Char.isDigit
    if ds.isEmpty then none else some (digitsToNat ds)

/-- The alternation `(?:md|mod)` at the current position of the already
lowercased input, `md` tried first as in the source pattern, then the tail.
The two alternatives can never both be prefixes of the same suffix, so no
further backtracking between them is needed. -/
def matchModAt (l : List Char) : Option Nat :=
  if (lchars "md").isPrefixOf l then matchTail (l.drop 2)
  else if (lchars "mod").isPrefixOf l then matchTail (l.drop 3)
  else none

/-- Leftmost `re.search` for the module pattern: the first position, left to
right, where `matchModAt` succeeds. -/
def searchMod : List Char → Option Nat
  | [] => none
  | c :: rest =>
    match matchModAt (c :: rest) with
    | some n => some n
    | none => searchMod rest

/-- Translation of `extract_module` (source lines 10-24). -/
def extract_module (source_name : List Char) : List Char :=
  match searchMod (source_name.map lowerCh) with
  | some n => 'M' :: 'D' :: Nat.toDigits 10 n
  | none => lchars "Other"

/-- Python substring test, `pat in l`. -/
def containsSub (pat l : List Char) : Bool :=
  l.tails.any (fun t => pat.isPrefixOf t)

/-- Translation of `extract_difficulty` (source lines 27-38). -/
def extract_difficulty (source_name : List Char) : List Char :=
  let lower := source_name.map lowerCh
  if containsSub (lchars "hard") lower then lchars "Hard"
  else if containsSub (lchars "medium") lower || containsSub (lchars "med ") lower
      || containsSub (lchars " tb med") lower then lchars "Medium"
  else if containsSub (lchars "easy") lower then lchars "Easy"
  else lchars "Unknown"

/-- The characters matched by `[A-D]` under `re.IGNORECASE`. -/
def optLetter (c : Char) : Bool :=
  ['A', 'B', 'C', 'D', 'a', 'b', 'c', 'd'].contains c

/-- Python `str.upper` on the characters an option letter can be. -/
def toUpperLetter (c : Char) : Char :=
  if c = 'a' then 'A' else if c = 'b' then 'B'
  else if c = 'c' then 'C' else if c = 'd' then 'D' else c

/-- The test `re.match` of `^[A-D]\.` against a line, ignoring case. -/
def matchOptionHead : Line → Bool
  | c :: d :: _ => optLetter c && (d == '.')
  | _ => false

/-- The groups of `re.match` of `^([A-D])\.\s*(.*)$` against a line, ignoring
case: the uppercased letter and the text after the dot and the greedy
whitespace. -/
def matchOptionFull : Line → Option (Char × Line)
  | c :: d :: rest =>
    if optLetter c && (d == '.') then some (toUpperLetter c, rest.dropWhile pyIsSpace)
    else none
  | _ => none

/-- Python `line.lower().startswith(pat)` for a lowercase ASCII `pat`. -/
def startsWithCI (pat l : Line) : Bool :=
  pat.isPrefixOf (l.map lowerCh)

/-- Does the line start with the answer tag, ignoring case. -/
def startsAns (l : Line) : Bool := startsWithCI (lchars "answer:") l

/-- Does the line start with the explanation tag, ignoring case. -/
def startsExpl (l : Line) : Bool := startsWithCI (lchars "explanation:") l

/-- Guard of the question-continuation loop (source lines 88-94). -/
def qcont (l : Line) : Bool := !matchOptionHead l && !startsAns l

/-- Guard of the option-continuation loop (source lines 108-115). -/
def contLine (l : Line) : Bool := !matchOptionHead l && !startsAns l && !startsExpl l

/-- The groups of `re.match` of `^Q(\d+)\.\s*(.*)$` against the question
line, ignoring case: the question number and the text after the dot. -/
def matchQ : Line → Option (Nat × Line)
  | c :: rest =>
    if c = 'Q' || c = 'q' then
      match rest.takeWhile Char.isDigit, rest.dropWhile Char.isDigit with
      | [], _ => none
      | ds, '.' :: rest2 => some (digitsToNat ds, rest2.dropWhile pyIsSpace)
      | _, _ => none
    else none
  | [] => none

/-- The group of `re.match` of `^answer:\s*([A-D])` against a line, ignoring
case: the uppercased answer letter, when the line carries one. -/
def matchAnswer (l : Line) : Option Char :=
  if startsAns l then
    match (l.drop 7).dropWhile pyIsSpace with
    | c :: _ => if optLetter c then some (toUpperLetter c) else none
    | [] => none
  else none

/-- Space-joining accumulator: the statement `text += " " + line` folded
over a list of lines. -/
def joinSp (t : Line) (ls : List Line) : Line :=
  ls.foldl (fun a l => a ++ ' ' :: l) t

/-- The option-consumption loops of `parse_quiz_text` (source lines 96-117):
the outer `while` consumes a line matching `^[A-D]\.` and opens a new option;
the inner `while` appends every following line that is neither an option line
nor an answer-tag nor an explanation-tag line to the text of the option just
opened.  The accumulator holds the consumed options in reverse, the most
recently opened option first.  The outer loop of the source is guarded by the
group-free pattern and re-matches with groups inside the body; its `continue`
branch is unreachable because a line matched by the group-free pattern is
always matched by the grouped one (theorem `matchOptionHead_full` below), so
this scanner branches on the grouped match directly. -/
def scanOptionsRev : List (Char × Line) → List Line → List (Char × Line) × List Line
  | racc, [] => (racc.reverse, [])
  | racc, l :: rest =>
    match matchOptionFull l with
    | some (c, t) => scanOptionsRev ((c, t) :: racc) rest
    | none =>
      match racc with
      | (c, t) :: racc2 =>
        if contLine l then scanOptionsRev ((c, t ++ ' ' :: l) :: racc2) rest
        else (((c, t) :: racc2).reverse, l :: rest)
      | [] => ([], l :: rest)

/-- The options stage: consumed options in order, and the remaining lines. -/
def scanOptions (ls : List Line) : List (Char × Line) × List Line :=
  scanOptionsRev [] ls

/-- The answer scan (source lines 119-126): the first line matching the
answer pattern; returns the letter and the lines after that line. -/
def findAnswer : List Line → Option (Char × List Line)
  | [] => none
  | l :: rest =>
    match matchAnswer l with
    | some c => some (c, rest)
    | none => findAnswer rest

/-- The substitution `re.sub` removing `^explanation:\s*`, ignoring case. -/
def stripExplTag (l : Line) : Line :=
  if startsExpl l then (l.drop 12).dropWhile pyIsSpace else l

/-- The explanation scan (source lines 128-139), with the running text and
the started flag as state. -/
def scanExplanationGo : Line → Bool → List Line → Line
  | e, _, [] => e
  | e, started, l :: rest =>
    if startsExpl l then scanExplanationGo (stripExplTag l) true rest
    else if started then scanExplanationGo (e ++ ' ' :: l) started rest
    else scanExplanationGo e started rest

/-- The captured explanation of a list of scanned lines. -/
def scanExplanation (ls : List Line) : Line := scanExplanationGo [] false ls

/-- One entry of the list built at source lines 145-153. -/
structure AnswerOption where
  text : Line
  isCorrect : Bool
  rationale : Line
deriving DecidableEq

/-- One entry of the result list (source lines 155-164); `questionNumber`
is `none` when the key is absent from the Python dict. -/
structure QuestionRecord where
  question : Line
  hint : Line
  answerOptions : List AnswerOption
  source : Line
  module : Line
  difficulty : Line
  questionNumber : Option Nat
deriving DecidableEq

/-- The test for `Q\d+\.` at the start of a line: the lookahead of the
block-splitting pattern, case sensitive. -/
def qMarker : Line → Bool
  | 'Q' :: rest =>
    match rest.takeWhile Char.isDigit, rest.dropWhile Char.isDigit with
    | [], _ => false
    | _, '.' :: _ => true
    | _, _ => false
  | _ => false

/-- Is the line whitespace-only (or empty). -/
def wsOnly (l : Line) : Bool := l.all pyIsSpace

/-- Grouping of the text lines into blocks, the line form of `re.split` on
the pattern newline-whitespace-newline followed by the `Q\d+\.` lookahead:
a new block starts at a line matching `Q\d+\.` whose predecessor is
whitespace-only and is not the first line of the text (the separator needs
two newline characters).  The whitespace-only separator lines stay at the
end of the preceding block here while `re.split` removes them; the field
extractor drops whitespace-only lines from a block before anything else, so
every block parses identically.  `pos` is the absolute index of the current
line and `prevWs` says whether the previous line is whitespace-only. -/
def splitBlocksGo (cur : List Line) (prevWs : Bool) (pos : Nat) : List Line → List (List Line)
  | [] => [cur]
  | l :: rest =>
    if 2 ≤ pos ∧ prevWs ∧ qMarker l then
      cur :: splitBlocksGo [l] (wsOnly l) (pos + 1) rest
    else
      splitBlocksGo (cur ++ [l]) (wsOnly l) (pos + 1) rest

/-- Block splitting of a list of lines. -/
def splitBlocks : List Line → List (List Line)
  | [] => []
  | l :: rest => splitBlocksGo [l] (wsOnly l) 1 rest

/-- Source line 69: strip every line of the block and drop the empty ones. -/
def cleanLines (bl : List Line) : List Line :=
  (bl.map pyStrip).filter (fun l => !l.isEmpty)

/-- The body of the per-block loop (source lines 68-166): `none` when the
block is skipped, `some` when a record is appended. -/
def parseBlock (module difficulty source : List Char) (bl : List Line) : Option QuestionRecord :=
  match cleanLines bl with
  | [] => none
  | qline :: rest =>
    let qm := matchQ qline
    let qnum : Option Nat := qm.map (fun p => p.1)
    let qtext0 : Line := match qm with | some (_, t) => t | none => qline
    let question := joinSp qtext0 (rest.takeWhile qcont)
    let sc := scanOptions (rest.dropWhile qcont)
    let fa := findAnswer sc.2
    let explanation := scanExplanation (match fa with | some (_, rem) => rem | none => sc.2)
    if sc.1.isEmpty then none
    else
      match fa with
      | none => none
      | some (a, _) =>
        some { question := question, hint := [],
               answerOptions := sc.1.map
                 (fun o => { text := o.2, isCorrect := o.1 == a, rationale := explanation }),
               source := source, module := module, difficulty := difficulty,
               questionNumber := qnum }

/-- Translation of `parse_quiz_text` (source lines 41-168). -/
def parse_quiz_text (text source_name : List Char) : List QuestionRecord :=
  let module := extract_module source_name
  let difficulty := extract_difficulty source_name
  let text2 := pyStrip (replaceCRLF text)
  if text2.isEmpty then []
  else (splitBlocks (splitOnNL text2)).filterMap (parseBlock module difficulty source_name)

/-- Lines of a block left after the question-continuation loop. -/
def afterQ (ls : List Line) : List Line :=
  match ls with
  | [] => []
  | _ :: rest => rest.dropWhile qcont

/-- The options consumed from a block. -/
def blockOptions (bl : List Line) : List (Char × Line) :=
  (scanOptions (afterQ (cleanLines bl))).1

/-- Lines of a block left after option consumption. -/
def afterOpts (bl : List Line) : List Line :=
  (scanOptions (afterQ (cleanLines bl))).2

/-- The captured answer letter of a block. -/
def blockAnswer (bl : List Line) : Option Char :=
  (findAnswer (afterOpts bl)).map (fun p => p.1)

/-- The lines scanned by the explanation step of a block. -/
def explLines (bl : List Line) : List Line :=
  match findAnswer (afterOpts bl) with
  | some (_, rem) => rem
  | none => afterOpts bl

/-- The captured explanation of a block. -/
def blockExplanation (bl : List Line) : Line := scanExplanation (explLines bl)

/-- The reassembled question text of a block. -/
def blockQuestion (bl : List Line) : Line :=
  match cleanLines bl with
  | [] => []
  | qline :: rest =>
    joinSp (match matchQ qline with | some (_, t) => t | none => qline) (rest.takeWhile qcont)

/-- The question number of a block. -/
def blockQnum (bl : List Line) : Option Nat :=
  match cleanLines bl with
  | [] => none
  | qline :: _ => (matchQ qline).map (fun p => p.1)

/-- The explanation as claim C4 words it: the stripped first line starting
with the explanation tag, joined with all following lines of the block. -/
def explSpecFirst : List Line → Line
  | [] => []
  | l :: rest => if startsExpl l then joinSp (stripExplTag l) rest else explSpecFirst rest

/-- The explanation the code computes, worded declaratively: the stripped
last line starting with the explanation tag, joined with the lines after
it. -/
def explSpecLast : List Line → Line
  | [] => []
  | l :: rest =>
    if startsExpl l && !rest.any startsExpl then joinSp (stripExplTag l) rest
    else explSpecLast rest

/-- Faithfulness of the option scanner to the nested loops of the source: a
line matched by the group-free outer-loop pattern is always matched by the
grouped pattern of the loop body, so the `continue` branch at source lines
102-103 can never run. -/
theorem matchOptionHead_full {l : Line} (h : matchOptionHead l = true) :
    ∃ c t, matchOptionFull l = some (c, t) := by
  match l with
  | [] => simp [matchOptionHead] at h
  | [c] => simp [matchOptionHead] at h
  | c :: d :: rest =>
    simp only [matchOptionHead] at h
    exact ⟨toUpperLetter c, rest.dropWhile pyIsSpace, by simp [matchOptionFull, h]⟩

/-- A line not matched by the group-free option pattern is not matched by
the grouped one either. -/
theorem matchOptionFull_none {l : Line} (h : matchOptionHead l = false) :
    matchOptionFull l = none := by
  match l with
  | [] => simp [matchOptionFull]
  | [c] => simp [matchOptionFull]
  | c :: d :: rest =>
    simp only [matchOptionHead] at h
    simp [matchOptionFull, h]

/-- Every letter the grouped option pattern can return is one of the four
uppercase letters. -/
theorem matchOptionFull_letter {l : Line} {c : Char} {t : Line}
    (h : matchOptionFull l = some (c, t)) : c ∈ ['A', 'B', 'C', 'D'] := by
  match l with
  | [] => simp [matchOptionFull] at h
  | [c0] => simp [matchOptionFull] at h
  | c0 :: d :: rest =>
    simp only [matchOptionFull] at h
    by_cases hc : optLetter c0 && (d == '.')
    · simp only [hc, if_true, Option.some.injEq, Prod.mk.injEq] at h
      obtain ⟨hc1, -⟩ := h
      have hletter : optLetter c0 = true := by
        cases ho : optLetter c0 <;> simp [ho] at hc ⊢
      simp only [optLetter, List.contains_cons, List.contains_nil, Bool.or_eq_true,
        beq_iff_eq] at hletter
      subst hc1
      rcases hletter with h1 | h1 | h1 | h1 | h1 | h1 | h1 | h1 | h1 <;>
        first
        | (subst h1; decide)
        | exact absurd h1 (by decide)
    · simp [hc] at h

/-- Counting the correct options of an assembled record counts the consumed
options whose letter equals the answer letter. -/
theorem countCorrect_map (opts : List (Char × Line)) (a : Char) (e : Line) :
    ((opts.map (fun o =>
        ({ text := o.2, isCorrect := o.1 == a, rationale := e } : AnswerOption))).filter
      (fun o => o.isCorrect)).length
    = (opts.filter (fun o => o.1 == a)).length := by
  induction opts with
  | nil => rfl
  | cons h tl ih =>
    cases hc : (h.1 == a) <;> simp [List.filter_cons, hc, ih]

/-- The per-block extractor, written with the stage views: it emits a record
exactly when at least one option was consumed and an answer letter was
matched, and marks an option correct exactly when its letter equals the
captured answer letter. -/
theorem parseBlock_eq (md df src : List Char) (bl : List Line) :
    parseBlock md df src bl =
      if (blockOptions bl).isEmpty then none
      else
        match blockAnswer bl with
        | none => none
        | some a =>
          some { question := blockQuestion bl, hint := [],
                 answerOptions := (blockOptions bl).map
                   (fun o => { text := o.2, isCorrect := o.1 == a, rationale := blockExplanation bl }),
                 source := src, module := md, difficulty := df,
                 questionNumber := blockQnum bl } := by
  unfold parseBlock blockOptions blockAnswer blockQuestion blockQnum blockExplanation explLines afterOpts afterQ
  cases hcl : cleanLines bl with
  | nil => simp [scanOptions, scanOptionsRev]
  | cons q rest =>
    cases hfa : findAnswer (scanOptions (rest.dropWhile qcont)).2 with
    | none =>
      cases hE : (scanOptions (rest.dropWhile qcont)).1.isEmpty <;> simp [hfa, hE]
    | some p =>
      obtain ⟨a, rem⟩ := p
      cases hE : (scanOptions (rest.dropWhile qcont)).1.isEmpty <;> simp [hfa, hE]

/-- Every option the scanner accumulates has a letter among the four
uppercase letters, provided the accumulator already does. -/
theorem scanOptionsRev_letters (ls : List Line) : ∀ racc : List (Char × Line),
    (∀ o ∈ racc, o.1 ∈ ['A', 'B', 'C', 'D']) →
    ∀ o ∈ (scanOptionsRev racc ls).1, o.1 ∈ ['A', 'B', 'C', 'D'] := by
  induction ls with
  | nil =>
    intro racc h o ho
    simp only [scanOptionsRev, List.mem_reverse] at ho
    exact h o ho
  | cons l rest ih =>
    intro racc h o ho
    cases hm : matchOptionFull l with
    | some p =>
      obtain ⟨c, t⟩ := p
      simp only [scanOptionsRev, hm] at ho
      refine ih _ ?_ o ho
      intro o2 ho2
      rcases List.mem_cons.mp ho2 with h2 | h2
      · subst h2; exact matchOptionFull_letter hm
      · exact h o2 h2
    | none =>
      cases racc with
      | nil =>
        simp [scanOptionsRev, hm] at ho
      | cons p racc2 =>
        obtain ⟨c, t⟩ := p
        by_cases hcont : contLine l = true
        · simp only [scanOptionsRev, hm, hcont, if_true] at ho
          refine ih _ ?_ o ho
          intro o2 ho2
          rcases List.mem_cons.mp ho2 with h2 | h2
          · subst h2; exact h (c, t) (List.mem_cons_self _ _)
          · exact h o2 (List.mem_cons_of_mem _ h2)
        · have hcont2 : contLine l = false := by
            cases hx : contLine l
            · rfl
            · exact absurd hx hcont
          simp only [scanOptionsRev, hm, hcont2, Bool.false_eq_true, if_false,
            List.mem_reverse] at ho
          exact h o ho

/-- The explanation scan never produces an explanation on a line list with
no explanation-tag line. -/
theorem explSpecLast_of_none {ls : List Line} (h : ls.any startsExpl = false) :
    explSpecLast ls = [] := by
  induction ls with
  | nil => rfl
  | cons l rest ih =>
    simp only [List.any_cons, Bool.or_eq_false_iff] at h
    simp [explSpecLast, h.1, ih h.2]

/-- Characterisation of the explanation scan: with an explanation-tag line
present the result is the stripped last such line joined with the lines
after it; otherwise the running state is returned (extended by every line
when capture has started). -/
theorem scanExplanationGo_eq (ls : List Line) : ∀ (e : Line) (started : Bool),
    scanExplanationGo e started ls =
      if ls.any startsExpl then explSpecLast ls
      else if started then joinSp e ls else e := by
  induction ls with
  | nil =>
    intro e started
    cases started <;> simp [scanExplanationGo, joinSp]
  | cons l rest ih =>
    intro e started
    cases hl : startsExpl l with
    | true =>
      simp only [scanExplanationGo, hl, if_true, ih, List.any_cons, Bool.true_or]
      cases hr : rest.any startsExpl with
      | true => simp [hr, explSpecLast, hl]
      | false => simp [hr, explSpecLast, hl]
    | false =>
      cases started with
      | true =>
        simp only [scanExplanationGo, hl, Bool.false_eq_true, if_false, if_true, ih,
          List.any_cons, Bool.false_or]
        cases hr : rest.any startsExpl with
        | true => simp [hr, explSpecLast, hl]
        | false => simp [hr, joinSp]
      | false =>
        simp only [scanExplanationGo, hl, Bool.false_eq_true, if_false, ih,
          List.any_cons, Bool.false_or]
        cases hr : rest.any startsExpl with
        | true => simp [hr, explSpecLast, hl]
        | false => simp [hr]

/-- C1 counterexample: on the input whose single block consumes only option
A but captures answer letter B, a record is emitted in which no option has
`isCorrect = true`, so it is false that every emitted record has exactly one
correct option. -/
theorem C1_counterexample :
    (parse_quiz_text (lchars "Q1. q\nA. x\nAnswer: B") (lchars "f")).map
      (fun r => (r.answerOptions.filter (fun o => o.isCorrect)).length) = [0] := by decide

/-- C1 (amended): for every emitted record, the number of options with
`isCorrect = true` equals the number of consumed options whose letter equals
the captured answer letter of the block; it is not always exactly one. -/
theorem C1_correct_count (md df src : List Char) (bl : List Line) (r : QuestionRecord)
    (a : Char) (h1 : parseBlock md df src bl = some r) (h2 : blockAnswer bl = some a) :
    (r.answerOptions.filter (fun o => o.isCorrect)).length
      = ((blockOptions bl).filter (fun o => o.1 == a)).length := by
  rw [parseBlock_eq] at h1
  cases hE : (blockOptions bl).isEmpty with
  | true => rw [hE] at h1; simp at h1
  | false =>
    rw [hE, h2] at h1
    simp only [Bool.false_eq_true, if_false] at h1
    injection h1 with h1
    subst h1
    exact countCorrect_map (blockOptions bl) a (blockExplanation bl)

theorem C1_correct_count_witness :
    ((({ question := lchars "q", hint := [],
         answerOptions := [{ text := lchars "x", isCorrect := false, rationale := [] }],
         source := lchars "s", module := lchars "m", difficulty := lchars "d",
         questionNumber := some 1 } : QuestionRecord)).answerOptions.filter
        (fun o => o.isCorrect)).length
      = ((blockOptions [lchars "Q1. q", lchars "A. x", lchars "Answer: B"]).filter
          (fun o => o.1 == 'B')).length :=
  C1_correct_count (lchars "m") (lchars "d") (lchars "s")
    [lchars "Q1. q", lchars "A. x", lchars "Answer: B"] _ 'B' (by decide) (by decide)

/-- C2: for every block yielding at least one consumed option and whose
first matched answer line carries a letter equal to the letter of exactly
one consumed option, the extractor emits exactly one record, and exactly one
option of that record has `isCorrect = true`. -/
theorem C2_wellformed_block (md df src : List Char) (bl : List Line) (a : Char)
    (h1 : blockOptions bl ≠ [])
    (h2 : blockAnswer bl = some a)
    (h3 : ((blockOptions bl).filter (fun o => o.1 == a)).length = 1) :
    ∃ r, parseBlock md df src bl = some r
      ∧ (r.answerOptions.filter (fun o => o.isCorrect)).length = 1 := by
  have hE : (blockOptions bl).isEmpty = false := by
    cases hx : blockOptions bl with
    | nil => exact absurd hx h1
    | cons x xs => rfl
  refine ⟨{ question := blockQuestion bl, hint := [],
            answerOptions := (blockOptions bl).map
              (fun o => { text := o.2, isCorrect := o.1 == a, rationale := blockExplanation bl }),
            source := src, module := md, difficulty := df,
            questionNumber := blockQnum bl }, ?_, ?_⟩
  · rw [parseBlock_eq, h2, hE]
    simp
  · exact (countCorrect_map (blockOptions bl) a (blockExplanation bl)).trans h3

theorem C2_wellformed_block_witness :
    ∃ r, parseBlock (lchars "MD1") (lchars "Hard") (lchars "src")
        [lchars "Q1. What is 2+2?", lchars "A. 3", lchars "B. 4", lchars "C. 5",
         lchars "D. 6", lchars "Answer: B", lchars "Explanation: Basic arithmetic."] = some r
      ∧ (r.answerOptions.filter (fun o => o.isCorrect)).length = 1 :=
  C2_wellformed_block (lchars "MD1") (lchars "Hard") (lchars "src")
    [lchars "Q1. What is 2+2?", lchars "A. 3", lchars "B. 4", lchars "C. 5",
     lchars "D. 6", lchars "Answer: B", lchars "Explanation: Basic arithmetic."]
    'B' (by decide) (by decide) (by decide)

/-- C3 counterexample: a block with five option lines, two of them lettered
A, is emitted as a record with five options and duplicated letters, so the
claimed bound of four options and the claimed letter distinctness are both
false. -/
theorem C3_counterexample :
    ((parse_quiz_text (lchars "Q1. q\nA. a\nB. b\nC. c\nD. d\nA. e\nAnswer: A")
        (lchars "f")).map (fun r => r.answerOptions.length) = [5])
    ∧ (blockOptions [lchars "Q1. q", lchars "A. a", lchars "B. b", lchars "C. c",
        lchars "D. d", lchars "A. e", lchars "Answer: A"]).map (fun o => o.1)
        = ['A', 'B', 'C', 'D', 'A']
    ∧ ¬ List.Nodup ['A', 'B', 'C', 'D', 'A'] := by decide

/-- C3 (amended): every emitted record has at least one option, and every
consumed option letter is one of the four uppercase letters A, B, C, D; the
option count is not bounded by four and letters may repeat. -/
theorem C3_option_shape :
    (∀ text src r, r ∈ parse_quiz_text text src → 1 ≤ r.answerOptions.length)
    ∧ (∀ bl : List Line, ∀ o ∈ blockOptions bl, o.1 ∈ ['A', 'B', 'C', 'D']) := by
  constructor
  · intro text src r hr
    unfold parse_quiz_text at hr
    dsimp only at hr
    cases hemp : (pyStrip (replaceCRLF text)).isEmpty with
    | true => rw [hemp] at hr; simp at hr
    | false =>
      rw [hemp] at hr
      simp only [Bool.false_eq_true, if_false] at hr
      obtain ⟨bl, -, hpb⟩ := List.mem_filterMap.mp hr
      rw [parseBlock_eq] at hpb
      cases hE : (blockOptions bl).isEmpty with
      | true => rw [hE] at hpb; simp at hpb
      | false =>
        rw [hE] at hpb
        simp only [Bool.false_eq_true, if_false] at hpb
        cases ha : blockAnswer bl with
        | none => rw [ha] at hpb; simp at hpb
        | some a =>
          rw [ha] at hpb
          injection hpb with hpb
          subst hpb
          show 1 ≤ ((blockOptions bl).map _).length
          rw [List.length_map]
          cases hbo : blockOptions bl with
          | nil => rw [hbo] at hE; simp at hE
          | cons x xs => simp
  · intro bl o ho
    unfold blockOptions scanOptions at ho
    exact scanOptionsRev_letters _ [] (by intro o2 ho2; simp at ho2) o ho

theorem C3_option_shape_witness : ('A' : Char) ∈ ['A', 'B', 'C', 'D'] :=
  C3_option_shape.2 [lchars "Q1. q", lchars "A. a"] ('A', lchars "a") (by decide)

/-- C4 counterexample: on a block whose explanation step scans two
explanation-tag lines, the captured explanation is the stripped second line
alone, not the stripped first explanation line joined with all following
lines of the block, so the claimed equation is false; the full pipeline
reaches this state and stores the restarted explanation as every rationale. -/
theorem C4_counterexample :
    scanExplanation [lchars "Explanation: foo", lchars "Explanation: bar"]
        ≠ explSpecFirst [lchars "Explanation: foo", lchars "Explanation: bar"]
    ∧ scanExplanation [lchars "Explanation: foo", lchars "Explanation: bar"] = lchars "bar"
    ∧ explSpecFirst [lchars "Explanation: foo", lchars "Explanation: bar"]
        = lchars "foo Explanation: bar"
    ∧ (parse_quiz_text (lchars "Q1. q\nA. x\nAnswer: A\nExplanation: foo\nExplanation: bar")
        (lchars "f")).map (fun r => r.answerOptions.map (fun o => o.rationale))
        = [[lchars "bar"]] := by decide

/-- C4 (amended): a line starting with the explanation tag restarts capture
instead of being appended; only lines after the last explanation-tag line
are unconditionally space-appended, so the captured explanation equals the
stripped last explanation-tag line joined with all lines after it (and is
empty when no line carries the tag). -/
theorem C4_explanation_runs (ls : List Line) : scanExplanation ls = explSpecLast ls := by
  rw [scanExplanation, scanExplanationGo_eq]
  cases h : ls.any startsExpl with
  | true => simp
  | false => simp [explSpecLast_of_none h]

theorem C4_explanation_runs_witness :
    scanExplanation [lchars "Explanation: a", lchars "b"]
      = explSpecLast [lchars "Explanation: a", lchars "b"] :=
  C4_explanation_runs [lchars "Explanation: a", lchars "b"]

/-- C5 counterexample: the label consisting of the seven characters of the
string tee-bee-med with a leading space gets difficulty Medium from the
code, although it contains none of the four substrings the claim allows to
fire, under which the claim would force Unknown. -/
theorem C5_counterexample :
    extract_difficulty (lchars " tb med") = lchars "Medium"
    ∧ containsSub (lchars "hard") ((lchars " tb med").map lowerCh) = false
    ∧ containsSub (lchars "medium") ((lchars " tb med").map lowerCh) = false
    ∧ containsSub (lchars "med ") ((lchars " tb med").map lowerCh) = false
    ∧ containsSub (lchars "easy") ((lchars " tb med").map lowerCh) = false
    ∧ lchars "Medium" ≠ lchars "Unknown" := by decide

/-- C5 (amended): the difficulty is Hard iff the lowercased label contains
the substring hard; else Medium iff it contains medium, or med-space, or
space-tee-bee-space-med (the third disjunct is present in the code and
missing from the claim); else Easy iff it contains easy; else Unknown, the
first matching rule winning. -/
theorem C5_difficulty_order (s : List Char) :
    (extract_difficulty s = lchars "Hard"
      ↔ containsSub (lchars "hard") (s.map lowerCh) = true)
    ∧ (extract_difficulty s = lchars "Medium"
      ↔ (containsSub (lchars "hard") (s.map lowerCh) = false
         ∧ (containsSub (lchars "medium") (s.map lowerCh)
            || containsSub (lchars "med ") (s.map lowerCh)
            || containsSub (lchars " tb med") (s.map lowerCh)) = true))
    ∧ (extract_difficulty s = lchars "Easy"
      ↔ (containsSub (lchars "hard") (s.map lowerCh) = false
         ∧ (containsSub (lchars "medium") (s.map lowerCh)
            || containsSub (lchars "med ") (s.map lowerCh)
            || containsSub (lchars " tb med") (s.map lowerCh)) = false
         ∧ containsSub (lchars "easy") (s.map lowerCh) = true))
    ∧ (extract_difficulty s = lchars "Unknown"
      ↔ (containsSub (lchars "hard") (s.map lowerCh) = false
         ∧ (containsSub (lchars "medium") (s.map lowerCh)
            || containsSub (lchars "med ") (s.map lowerCh)
            || containsSub (lchars " tb med") (s.map lowerCh)) = false
         ∧ containsSub (lchars "easy") (s.map lowerCh) = false)) := by
  unfold extract_difficulty
  dsimp only
  split_ifs with h1 h2 h3 <;> simp_all +decide
  constructor <;> intro hm1 hm2 hm3 <;> rcases h2 with (h2 | h2) | h2 <;> simp_all

theorem C5_difficulty_order_witness :
    extract_difficulty (lchars " tb med") = lchars "Medium" :=
  (C5_difficulty_order (lchars " tb med")).2.1.mpr ⟨by decide, by decide⟩

/-- C6: module derivation depends only on the lowercased label, the three
labels of the claim all map to MD1, a label in which the leftmost search
finds the pattern maps to the letters MD followed by the decimal digits of
the parsed integer (zero padding normalised away by the integer parse), and
a label without the pattern maps to Other. -/
theorem C6_module_derivation :
    (∀ s t : List Char, s.map lowerCh = t.map lowerCh → extract_module s = extract_module t)
    ∧ (∀ s n, searchMod (s.map lowerCh) = some n →
        extract_module s = 'M' :: 'D' :: Nat.toDigits 10 n)
    ∧ (∀ s, searchMod (s.map lowerCh) = none → extract_module s = lchars "Other")
    ∧ extract_module (lchars "MD1") = lchars "MD1"
    ∧ extract_module (lchars "md 01") = lchars "MD1"
    ∧ extract_module (lchars "Mod001") = lchars "MD1" := by
  refine ⟨?_, ?_, ?_, by decide, by decide, by decide⟩
  · intro s t h
    unfold extract_module
    rw [h]
  · intro s n h
    unfold extract_module
    rw [h]
  · intro s h
    unfold extract_module
    rw [h]

theorem C6_module_derivation_witness :
    extract_module (lchars "MD07") = extract_module (lchars "mD07")
    ∧ extract_module (lchars "Misc Review") = lchars "Other" :=
  ⟨C6_module_derivation.1 (lchars "MD07") (lchars "mD07") (by decide),
   C6_module_derivation.2.2.1 (lchars "Misc Review") (by decide)⟩

/-- C7: a block from which zero options are consumed, or in which no answer
line is matched at or after the position where option consumption stopped,
yields no record; and dropping all such blocks from a block list leaves the
parsed output unchanged, so the other blocks are unaffected. -/
theorem C7_malformed_drop :
    (∀ md df src bl, (blockOptions bl = [] ∨ blockAnswer bl = none) →
        parseBlock md df src bl = none)
    ∧ (∀ md df src (bs : List (List Line)),
        bs.filterMap (parseBlock md df src)
          = (bs.filter
              (fun b => !((blockOptions b).isEmpty || (blockAnswer b).isNone))).filterMap
              (parseBlock md df src)) := by
  have hnone : ∀ md df src bl, (blockOptions bl = [] ∨ blockAnswer bl = none) →
      parseBlock md df src bl = none := by
    intro md df src bl h
    rw [parseBlock_eq]
    rcases h with h | h
    · simp [h]
    · rw [h]
      cases hE : (blockOptions bl).isEmpty <;> simp
  refine ⟨hnone, ?_⟩
  intro md df src bs
  induction bs with
  | nil => rfl
  | cons b rest ih =>
    cases hb : !((blockOptions b).isEmpty || (blockAnswer b).isNone) with
    | true =>
      simp only [List.filter_cons, hb, if_true, List.filterMap_cons, ih]
    | false =>
      have hdrop : blockOptions b = [] ∨ blockAnswer b = none := by
        have hb2 : ((blockOptions b).isEmpty || (blockAnswer b).isNone) = true := by
          cases hx : ((blockOptions b).isEmpty || (blockAnswer b).isNone)
          · rw [hx] at hb; simp at hb
          · rfl
        rcases Bool.or_eq_true_iff.mp hb2 with h2 | h2
        · exact Or.inl (List.isEmpty_iff.mp h2)
        · exact Or.inr (Option.isNone_iff_eq_none.mp h2)
      simp only [List.filter_cons, hb, Bool.false_eq_true, if_false, List.filterMap_cons,
        hnone md df src b hdrop, ih]

theorem C7_malformed_drop_witness :
    parseBlock (lchars "m") (lchars "d") (lchars "s")
      [lchars "Q1. q", lchars "A. x"] = none :=
  C7_malformed_drop.1 (lchars "m") (lchars "d") (lchars "s")
    [lchars "Q1. q", lchars "A. x"] (Or.inr (by decide))

/-- C8: empty input text yields the empty record list for every label. -/
theorem C8_empty_input (source_name : List Char) :
    parse_quiz_text [] source_name = [] := rfl

theorem C8_empty_input_witness :
    parse_quiz_text [] (lchars "MD1 TB Hard") = [] :=
  C8_empty_input (lchars "MD1 TB Hard")

/-- C9: the parser is a total function returning a list of records, at most
one per block of the split input; the embedding is built from structurally
terminating scans, and the record count is bounded by the block count. -/
theorem C9_terminates (text source_name : List Char) :
    (parse_quiz_text text source_name).length
      ≤ (splitBlocks (splitOnNL (pyStrip (replaceCRLF text)))).length := by
  unfold parse_quiz_text
  cases h : (pyStrip (replaceCRLF text)).isEmpty with
  | true => simp [h]
  | false =>
    simp only [h, Bool.false_eq_true, if_false]
    exact List.length_filterMap_le _ _

theorem C9_terminates_witness :
    (parse_quiz_text (lchars "Q1. a") (lchars "s")).length
      ≤ (splitBlocks (splitOnNL (pyStrip (replaceCRLF (lchars "Q1. a"))))).length :=
  C9_terminates (lchars "Q1. a") (lchars "s")

/-- C10: after at least one option has been consumed, a line that does not
match the option pattern and does not start with the answer or explanation
tag is space-appended to the text of the most recently consumed option. -/
theorem C10_wrap_append (racc : List (Char × Line)) (c : Char) (t l : Line)
    (rest : List Line) (h : contLine l = true) :
    scanOptionsRev ((c, t) :: racc) (l :: rest)
      = scanOptionsRev ((c, t ++ ' ' :: l) :: racc) rest := by
  have hhead : matchOptionHead l = false := by
    cases hx : matchOptionHead l
    · rfl
    · unfold contLine at h
      rw [hx] at h
      simp at h
  simp [scanOptionsRev, matchOptionFull_none hhead, h]

theorem C10_wrap_append_witness :
    scanOptionsRev [('A', lchars "x")] [lchars "y"] = ([('A', lchars "x y")], []) :=
  (C10_wrap_append [] 'A' (lchars "x") (lchars "y") [] (by decide)).trans (by decide)

end BuildQuestions
